import Mathlib

/-!
Verification of the Bell 407 dashboard builder
(`src/build_b407_dashboard.py`).

Shallow embedding conventions:
* Calendar days are modelled as integers (`Int`).  The Python code stores
  days as ISO `YYYY-MM-DD` strings and compares them with string
  comparison; lexicographic order on ISO strings agrees with calendar
  order, so integer day numbers with the usual order are a faithful model.
  `datetime.today() - timedelta(days = n)` becomes `today - n`; the
  time-of-day component of `datetime.today()` drops out because the code
  only ever takes `.days` of differences whose fractional part is below
  one day.
* Hour counters are modelled as rationals (`ℚ`); the Python floats are
  only ever compared, subtracted, divided and multiplied, and every claim
  under study is about exact threshold/arithmetic behaviour.
* A Python `dict` is modelled as an insertion-ordered association list;
  `dict` insertion appends at the end, membership tests and lookups find
  the (unique) key.
* Python's `list.sort(key = ...)` and `sorted(...)` are stable sorts; they
  are modelled with `List.insertionSort`, which is stable and sorts with
  respect to the same key order.
* Reading a file that may be absent or unparseable is modelled by passing
  the parse outcome as a value of type `Option (Except String History)`:
  `none` is an absent file, `some (.error e)` a file whose contents fail
  to parse, `some (.ok h)` a successfully parsed history.
-/

namespace B407

/-! ## Thresholds (`CRITICAL_DAYS` … in the source) -/

def CRITICAL_DAYS : ℚ := 7

def COMING_DUE_DAYS : ℚ := 30

def CRITICAL_HOURS : ℚ := 25

def COMING_DUE_HOURS : ℚ := 100

/-! ## Urgency taxonomy and `classify` -/

/-- The urgency buckets produced by `classify` (the Python code uses the
strings "OVERDUE", "CRITICAL", "COMING DUE", "OK", "UNKNOWN"). -/
inductive Urgency where
  | OVERDUE
  | CRITICAL
  | COMING_DUE
  | OK
  | UNKNOWN
deriving DecidableEq, Repr

/-- Embedding of `classify(remaining_days, remaining_hours)`
(`build_b407_dashboard.py`, lines 86-99).  An absent value is `none`. -/
def classify (remaining_days remaining_hours : Option ℚ) : Urgency :=
  match remaining_days with
  | some d =>
    if d < 0 then .OVERDUE
    else if d ≤ CRITICAL_DAYS then .CRITICAL
    else if d ≤ COMING_DUE_DAYS then .COMING_DUE
    else .OK
  | none =>
    match remaining_hours with
    | some h =>
      if h < 0 then .OVERDUE
      else if h ≤ CRITICAL_HOURS then .CRITICAL
      else if h ≤ COMING_DUE_HOURS then .COMING_DUE
      else .OK
    | none => .UNKNOWN

/-! ## Due items and `urgency_key` -/

/-- The fields of an item dictionary that `urgency_key` reads
(`build_b407_dashboard.py`, lines 280-289 build the item, 102-109 read
it). -/
structure Item where
  status : Urgency
  remaining_days : Option ℚ
  remaining_hours : Option ℚ
deriving DecidableEq, Repr

/-- The `order` table inside `urgency_key` (line 103). -/
def statusOrder : Urgency → Nat
  | .OVERDUE => 0
  | .CRITICAL => 1
  | .COMING_DUE => 2
  | .OK => 3
  | .UNKNOWN => 4

/-- Embedding of `urgency_key(item)` (lines 102-109): bucket ordinal plus
a secondary numeric key (`remaining_days` if present, else
`remaining_hours`, else the sentinel `999_999`). -/
def urgency_key (item : Item) : Nat × ℚ :=
  match item.remaining_days with
  | some d => (statusOrder item.status, d)
  | none =>
    match item.remaining_hours with
    | some h => (statusOrder item.status, h)
    | none => (statusOrder item.status, 999999)

/-- Lexicographic comparison of Python tuples `(bucket, secondary)`, the
order under which `list.sort(key=urgency_key)` sorts. -/
def keyLe (a b : Nat × ℚ) : Prop :=
  a.1 < b.1 ∨ (a.1 = b.1 ∧ a.2 ≤ b.2)

instance (a b : Nat × ℚ) : Decidable (keyLe a b) := by
  unfold keyLe
  infer_instance

/-- Item comparison induced by `urgency_key`. -/
def itemLe (a b : Item) : Prop :=
  keyLe (urgency_key a) (urgency_key b)

instance (a b : Item) : Decidable (itemLe a b) := by
  unfold itemLe
  infer_instance

/-- Embedding of `data["items"].sort(key=urgency_key)` (lines 299-300):
Python's stable sort by `urgency_key`, modelled as a stable insertion
sort with respect to `itemLe`. -/
def sortItems (items : List Item) : List Item :=
  items.insertionSort itemLe

instance : IsTrans Item itemLe where
  trans := by
    intro a b c hab hbc
    rcases hab with h1 | ⟨h1, h2⟩ <;> rcases hbc with h3 | ⟨h3, h4⟩
    · exact Or.inl (lt_trans h1 h3)
    · exact Or.inl (h3 ▸ h1)
    · exact Or.inl (h1 ▸ h3)
    · exact Or.inr ⟨h1.trans h3, h2.trans h4⟩

instance : IsTotal Item itemLe where
  total := by
    intro a b
    rcases lt_trichotomy (urgency_key a).1 (urgency_key b).1 with h | h | h
    · exact Or.inl (Or.inl h)
    · rcases le_total (urgency_key a).2 (urgency_key b).2 with h2 | h2
      · exact Or.inl (Or.inr ⟨h, h2⟩)
      · exact Or.inr (Or.inr ⟨h.symm, h2⟩)
    · exact Or.inr (Or.inl h)

/-! ## History store -/

/-- One entity's history: the inner dict `day ↦ {"hours": h}`, an
insertion-ordered association list with (in well-formed states) distinct
days. -/
abbrev EntityHist := List (Int × ℚ)

/-- The persisted history: the outer dict `tail ↦ entity history`. -/
abbrev History := List (String × EntityHist)

/-- Dict lookup `history[tail][day]` as an `Option`. -/
def entityLookup (eh : EntityHist) (d : Int) : Option ℚ :=
  (eh.find? (fun p => decide (p.1 = d))).map Prod.snd

/-- Dict indexing `snapshots[d]["hours"]`; the default is never reached
on the states the program builds, where the key is always present. -/
def hoursAt (eh : EntityHist) (d : Int) : ℚ :=
  (entityLookup eh d).getD 0

/-- The body of `update_history`'s inner conditional (lines 155-156):
`if date_iso not in history[tail]: history[tail][date_iso] = {...}`.
Dict insertion appends the new key at the end. -/
def entityInsert (eh : EntityHist) (d : Int) (hrs : ℚ) : EntityHist :=
  match entityLookup eh d with
  | some _ => eh
  | none => eh ++ [(d, hrs)]

/-- One iteration of `update_history`'s loop (lines 153-156):
`history.setdefault(tail, {})` followed by the guarded day insertion.
Acts on the first association with the given tail. -/
def histInsert : History → String → Int → ℚ → History
  | [], t, d, hrs => [(t, [(d, hrs)])]
  | (t', eh) :: rest, t, d, hrs =>
    if t' = t then (t', entityInsert eh d hrs) :: rest
    else (t', eh) :: histInsert rest t d hrs

/-- Lookup `history[tail][day]` through both dict levels. -/
def histLookup (h : History) (t : String) (d : Int) : Option ℚ :=
  match h.find? (fun p => decide (p.1 = t)) with
  | some p => entityLookup p.2 d
  | none => none

/-- Embedding of `update_history(history, snapshots)` (lines 151-157):
merge the observed `(tail, day, hours)` triples into the history, never
overwriting an existing `(tail, day)` entry. -/
def update_history (history : History) (snapshots : List (String × Int × ℚ)) : History :=
  snapshots.foldl (fun h s => histInsert h s.1 s.2.1 s.2.2) history

/-! ## Snapshot extractor -/

/-- The three columns `collect_snapshots` reads from a row, with parsing
already applied: `regNumber` is the raw "Registration Number" cell
(`none` for a missing cell), `reportDate` is the result of
`parse_date_iso` on the "Airframe Report Date" cell (`none` when the
date fails to parse), and `airframeHours` is the result of
`float(row["Airframe Hours"])` (`none` when that conversion raises on an
absent or non-numeric cell). -/
structure Row where
  regNumber : Option String
  reportDate : Option Int
  airframeHours : Option ℚ
deriving DecidableEq, Repr

/-- Leading and trailing whitespace removed from a character list, the
effect of Python's `str.strip()`. -/
def stripChars (cs : List Char) : List Char :=
  ((cs.dropWhile Char.isWhitespace).reverse.dropWhile Char.isWhitespace).reverse

/-- Embedding of `_norm` (lines 45-48) on the registration cell: a
missing value becomes `""`, otherwise the string is stripped. -/
def normStr (s : Option String) : String :=
  match s with
  | none => ""
  | some str => String.mk (stripChars str.data)

/-- The row-validation block of `collect_snapshots` (lines 136-142): the
hours conversion must succeed, and the normalised tail and the parsed
date must be non-empty, otherwise the row is skipped. -/
def rowTriple (r : Row) : Option (String × Int × ℚ) :=
  match r.airframeHours with
  | none => none
  | some hrs =>
    match r.reportDate with
    | none => none
    | some d =>
      if normStr r.regNumber = "" then none
      else some (normStr r.regNumber, d, hrs)

/-- Embedding of `DataFrame.drop_duplicates()` (line 134): keep the first
occurrence of each fully identical row, tracked with an accumulator of
rows seen so far. -/
def dropDuplicatesAux : List Row → List Row → List Row
  | [], _ => []
  | r :: rest, seen =>
    if r ∈ seen then dropDuplicatesAux rest seen
    else r :: dropDuplicatesAux rest (r :: seen)

/-- Rows of the batch with later exact duplicates removed. -/
def dropDuplicates (df : List Row) : List Row :=
  dropDuplicatesAux df []

/-- The main loop of `collect_snapshots` (lines 135-147): walk the rows,
skip invalid ones, and keep the first triple for each `(tail, date)`
key, tracking keys in the `seen` set. -/
def collectLoop : List Row → List (String × Int) → List (String × Int × ℚ)
  | [], _ => []
  | r :: rest, seen =>
    match rowTriple r with
    | none => collectLoop rest seen
    | some tr =>
      if (tr.1, tr.2.1) ∈ seen then collectLoop rest seen
      else tr :: collectLoop rest ((tr.1, tr.2.1) :: seen)

/-- Embedding of `collect_snapshots(df)` (lines 130-148). -/
def collect_snapshots (df : List Row) : List (String × Int × ℚ) :=
  collectLoop (dropDuplicates df) []

/-- Whether a row is valid and carries the `(tail, day)` key `(t, d)`;
used to state which row of the batch a kept triple comes from. -/
def keyBool (r : Row) (t : String) (d : Int) : Bool :=
  match rowTriple r with
  | some tr => decide (tr.1 = t ∧ tr.2.1 = d)
  | none => false

/-! ## Utilization estimator -/

/-- The per-entity statistics dictionary built by
`calculate_utilization`.  In the fewer-than-two-snapshots branch the
Python dict carries no projection keys; the report assembler reads them
with `.get`, which yields `None`, so absent keys are modelled as
`none`. -/
structure UtilStats where
  avg_daily : Option ℚ
  projection_weekly : Option ℚ
  projection_monthly : Option ℚ
  daily_data : List (Int × ℚ)
  current_hours : Option ℚ
deriving DecidableEq, Repr

/-- Descending order on days: `sorted(snapshots.keys(), reverse=True)`. -/
def descDay (a b : Int) : Prop := b ≤ a

instance (a b : Int) : Decidable (descDay a b) := by
  unfold descDay
  infer_instance

/-- Ascending order on days, for the chronological chart series. -/
def ascDay (a b : Int) : Prop := a ≤ b

instance (a b : Int) : Decidable (ascDay a b) := by
  unfold ascDay
  infer_instance

instance : IsTrans Int descDay where
  trans := fun _ _ _ h1 h2 => le_trans h2 h1

instance : IsTotal Int descDay where
  total := fun a b => le_total b a

instance : IsTrans Int ascDay where
  trans := fun _ _ _ h1 h2 => le_trans h1 h2

instance : IsTotal Int ascDay where
  total := fun a b => le_total a b

/-- Embedding of the per-entity body of `calculate_utilization`
(lines 172-226) for run date `today`.  `thirty_ago`/`seven_ago` are
`today - 30`/`today - 7`; the spans the code computes as
`(today - strptime(..._ago_str)).days` are exactly `30` and `7` because
the fractional time-of-day part is discarded by `.days`. -/
def calcEntity (today : Int) (snapshots : EntityHist) : UtilStats :=
  let thirtyAgo := today - 30
  let sevenAgo := today - 7
  let sortedDates := (snapshots.map Prod.fst).insertionSort descDay
  let dailyData := ((sortedDates.take 7).insertionSort ascDay).map
    (fun d => (d, hoursAt snapshots d))
  if sortedDates.length < 2 then
    { avg_daily := none
      projection_weekly := none
      projection_monthly := none
      daily_data := dailyData
      current_hours := sortedDates.head?.map (hoursAt snapshots) }
  else
    let latestHours := hoursAt snapshots sortedDates.headI
    let monthlyHours := (sortedDates.find? (fun d => decide (d ≤ thirtyAgo))).map
      (fun d => latestHours - hoursAt snapshots d)
    let weeklyHours := (sortedDates.find? (fun d => decide (d ≤ sevenAgo))).map
      (fun d => latestHours - hoursAt snapshots d)
    let avgDaily :=
      match monthlyHours with
      | some m =>
        let span := today - thirtyAgo
        if 0 < span then some (m / (span : ℚ)) else none
      | none =>
        match weeklyHours with
        | some w =>
          let span := today - sevenAgo
          if 0 < span then some (w / (span : ℚ)) else none
        | none =>
          let oldest := sortedDates.getLastD 0
          let newest := sortedDates.headI
          let span := newest - oldest
          if 0 < span then some ((latestHours - hoursAt snapshots oldest) / (span : ℚ))
          else none
    { avg_daily := avgDaily
      projection_weekly := avgDaily.map (· * 7)
      projection_monthly := avgDaily.map (· * 30)
      daily_data := dailyData
      current_hours := some latestHours }

/-- Embedding of `calculate_utilization(history)` (lines 162-228): the
per-entity statistics in history order. -/
def calculate_utilization (today : Int) (history : History) : List (String × UtilStats) :=
  history.map (fun p => (p.1, calcEntity today p.2))

/-! ## Spec-side utilization rule (for the refinement claims) -/

/-- Greatest element of a list of days, as an `Option`. -/
def maxD : List Int → Option Int
  | [] => none
  | d :: rest =>
    match maxD rest with
    | none => some d
    | some m => some (max d m)

/-- Least element of a list of days, as an `Option`. -/
def minD : List Int → Option Int
  | [] => none
  | d :: rest =>
    match minD rest with
    | none => some d
    | some m => some (min d m)

/-- The most recent day at or before `bound`, if any. -/
def latestQualifying (days : List Int) (bound : Int) : Option Int :=
  maxD (days.filter (fun d => decide (d ≤ bound)))

/-- Modelled from the spec's words (§4.3, restated by the claim): the
average-daily-rate rule.  If a snapshot exists at or before
`today - 30`, divide the hours gained since the most recent such
snapshot by the nominal 30; else if one exists at or before `today - 7`,
divide by the nominal 7; else, with at least two snapshots, divide the
full hours span by the full day span, undefined when that span is
zero. -/
def specAvgDaily (today : Int) (snapshots : EntityHist) : Option ℚ :=
  let days := snapshots.map Prod.fst
  if snapshots.length < 2 then none
  else
    match maxD days, minD days with
    | some newest, some oldest =>
      let latestHours := hoursAt snapshots newest
      match latestQualifying days (today - 30) with
      | some b => some ((latestHours - hoursAt snapshots b) / 30)
      | none =>
        match latestQualifying days (today - 7) with
        | some b => some ((latestHours - hoursAt snapshots b) / 7)
        | none =>
          if newest - oldest = 0 then none
          else some ((latestHours - hoursAt snapshots oldest) / ((newest - oldest : Int) : ℚ))
    | _, _ => none

/-- Embedding of `load_history()` (lines 114-121).  The state of the
history file is passed in as the outcome of reading and parsing it:
`none` when `HISTORY_JSON.exists()` is false, `some (.error e)` when
`json.load` raises, `some (.ok h)` when it parses.  The Python function
swallows every exception and returns `{}`. -/
def load_history (persisted : Option (Except String History)) : History :=
  match persisted with
  | some (Except.ok h) => h
  | some (Except.error _) => []
  | none => []

/-! ## History-store lemmas -/

theorem histLookup_cons (t2 : String) (eh : EntityHist) (rest : History) (t : String) (d : Int) :
    histLookup ((t2, eh) :: rest) t d =
      if t2 = t then entityLookup eh d else histLookup rest t d := by
  by_cases h : t2 = t <;> simp [histLookup, List.find?, h]

theorem histInsert_cons (t2 : String) (eh : EntityHist) (rest : History) (t : String) (d : Int)
    (hrs : ℚ) :
    histInsert ((t2, eh) :: rest) t d hrs =
      if t2 = t then (t2, entityInsert eh d hrs) :: rest
      else (t2, eh) :: histInsert rest t d hrs := rfl

theorem entityLookup_cons (p : Int × ℚ) (eh : EntityHist) (d : Int) :
    entityLookup (p :: eh) d = if p.1 = d then some p.2 else entityLookup eh d := by
  by_cases h : p.1 = d <;> simp [entityLookup, List.find?, h]

theorem entityLookup_insert_self (eh : EntityHist) (d : Int) (hrs : ℚ) :
    entityLookup (entityInsert eh d hrs) d = some ((entityLookup eh d).getD hrs) := by
  unfold entityInsert
  cases hE : entityLookup eh d with
  | some v => simp [hE]
  | none =>
    have hf : eh.find? (fun p => decide (p.1 = d)) = none := by
      unfold entityLookup at hE
      cases hf2 : eh.find? (fun p => decide (p.1 = d)) with
      | some p => rw [hf2] at hE; simp at hE
      | none => rfl
    simp [entityLookup, List.find?_append, hf, List.find?]

theorem entityLookup_insert_other (eh : EntityHist) (d2 d : Int) (hrs : ℚ) (hne : d2 ≠ d) :
    entityLookup (entityInsert eh d2 hrs) d = entityLookup eh d := by
  unfold entityInsert
  cases hE : entityLookup eh d2 with
  | some v => rfl
  | none => simp [entityLookup, List.find?_append, List.find?, hne]

theorem histInsert_lookup_present (h : History) (t : String) (d : Int) (hrs : ℚ)
    (hp : (histLookup h t d).isSome) : histInsert h t d hrs = h := by
  induction h with
  | nil => simp [histLookup, List.find?] at hp
  | cons p rest ih =>
    obtain ⟨t2, eh⟩ := p
    rw [histLookup_cons] at hp
    rw [histInsert_cons]
    by_cases ht : t2 = t
    · rw [if_pos ht] at hp
      rw [if_pos ht]
      have : entityInsert eh d hrs = eh := by
        unfold entityInsert
        cases hE : entityLookup eh d with
        | some v => rfl
        | none => rw [hE] at hp; simp at hp
      rw [this]
    · rw [if_neg ht] at hp
      rw [if_neg ht, ih hp]

theorem histInsert_lookup_other (h : History) (t2 : String) (d2 : Int) (t : String) (d : Int)
    (hrs : ℚ) (hne : ¬(t2 = t ∧ d2 = d)) :
    histLookup (histInsert h t2 d2 hrs) t d = histLookup h t d := by
  induction h with
  | nil =>
    by_cases ht : t2 = t
    · subst ht
      have hd : d2 ≠ d := fun hd => hne ⟨rfl, hd⟩
      simp [histInsert, histLookup, List.find?, entityLookup, hd]
    · simp [histInsert, histLookup, List.find?, ht]
  | cons p rest ih =>
    obtain ⟨t3, eh⟩ := p
    rw [histInsert_cons]
    by_cases h3 : t3 = t2
    · rw [if_pos h3]
      rw [histLookup_cons, histLookup_cons]
      by_cases ht : t3 = t
      · rw [if_pos ht, if_pos ht]
        have ht2 : t2 = t := h3 ▸ ht
        have hd : d2 ≠ d := fun hd => hne ⟨ht2, hd⟩
        exact entityLookup_insert_other eh d2 d hrs hd
      · rw [if_neg ht, if_neg ht]
    · rw [if_neg h3]
      rw [histLookup_cons, histLookup_cons]
      by_cases ht : t3 = t
      · rw [if_pos ht, if_pos ht]
      · rw [if_neg ht, if_neg ht]
        exact ih

theorem histInsert_lookup_new (h : History) (t : String) (d : Int) (hrs : ℚ)
    (hp : histLookup h t d = none) :
    histLookup (histInsert h t d hrs) t d = some hrs := by
  induction h with
  | nil => simp [histInsert, histLookup, List.find?, entityLookup]
  | cons p rest ih =>
    obtain ⟨t2, eh⟩ := p
    rw [histLookup_cons] at hp
    rw [histInsert_cons]
    by_cases ht : t2 = t
    · rw [if_pos ht] at hp
      rw [if_pos ht, histLookup_cons, if_pos ht, entityLookup_insert_self, hp]
      rfl
    · rw [if_neg ht] at hp
      rw [if_neg ht, histLookup_cons, if_neg ht]
      exact ih hp

theorem histInsert_preserves (h : History) (t : String) (d : Int) (v : ℚ) (t2 : String)
    (d2 : Int) (hrs : ℚ) (hp : histLookup h t d = some v) :
    histLookup (histInsert h t2 d2 hrs) t d = some v := by
  by_cases hk : t2 = t ∧ d2 = d
  · obtain ⟨rfl, rfl⟩ := hk
    rw [histInsert_lookup_present h t2 d2 hrs (by simp [hp])]
    exact hp
  · rw [histInsert_lookup_other h t2 d2 t d hrs hk]
    exact hp

theorem update_history_cons (h : History) (s : String × Int × ℚ) (S : List (String × Int × ℚ)) :
    update_history h (s :: S) = update_history (histInsert h s.1 s.2.1 s.2.2) S := rfl

theorem update_history_preserves (S : List (String × Int × ℚ)) (h : History) (t : String)
    (d : Int) (v : ℚ) (hp : histLookup h t d = some v) :
    histLookup (update_history h S) t d = some v := by
  induction S generalizing h with
  | nil => exact hp
  | cons s S ih =>
    rw [update_history_cons]
    exact ih _ (histInsert_preserves h t d v s.1 s.2.1 s.2.2 hp)

theorem update_history_new (S : List (String × Int × ℚ)) (h : History) (t : String) (d : Int)
    (hp : histLookup h t d = none) :
    histLookup (update_history h S) t d =
      (S.find? (fun s => decide (s.1 = t) && decide (s.2.1 = d))).map (fun s => s.2.2) := by
  induction S generalizing h with
  | nil => exact hp
  | cons s S ih =>
    rw [update_history_cons]
    by_cases hk : s.1 = t ∧ s.2.1 = d
    · obtain ⟨h1, h2⟩ := hk
      have hins : histLookup (histInsert h s.1 s.2.1 s.2.2) t d = some s.2.2 := by
        rw [h1, h2] at *
        exact histInsert_lookup_new h t d s.2.2 hp
      rw [update_history_preserves S _ t d s.2.2 hins]
      simp [List.find?, h1, h2]
    · have hins : histLookup (histInsert h s.1 s.2.1 s.2.2) t d = none := by
        rw [histInsert_lookup_other h s.1 s.2.1 t d s.2.2 hk]
        exact hp
      rw [ih _ hins]
      have : (decide (s.1 = t) && decide (s.2.1 = d)) = false := by
        rcases not_and_or.mp hk with h1 | h2
        · simp [h1]
        · simp [h2]
      simp [List.find?, this]

theorem histInsert_lookup_isSome (h : History) (t : String) (d : Int) (hrs : ℚ) :
    (histLookup (histInsert h t d hrs) t d).isSome := by
  cases hE : histLookup h t d with
  | some v => rw [histInsert_preserves h t d v t d hrs hE]; rfl
  | none => rw [histInsert_lookup_new h t d hrs hE]; rfl

theorem update_history_isSome (S : List (String × Int × ℚ)) (h : History) (t : String)
    (d : Int) (hp : (histLookup h t d).isSome) :
    (histLookup (update_history h S) t d).isSome := by
  obtain ⟨v, hv⟩ := Option.isSome_iff_exists.mp hp
  rw [update_history_preserves S h t d v hv]
  rfl

theorem update_history_mem_isSome (S : List (String × Int × ℚ)) (h : History)
    (s : String × Int × ℚ) (hs : s ∈ S) :
    (histLookup (update_history h S) s.1 s.2.1).isSome := by
  induction S generalizing h with
  | nil => cases hs
  | cons s2 S ih =>
    rw [update_history_cons]
    rcases List.mem_cons.mp hs with rfl | hmem
    · exact update_history_isSome S _ s.1 s.2.1
        (histInsert_lookup_isSome h s.1 s.2.1 s.2.2)
    · exact ih _ hmem

theorem update_history_of_all_present (S : List (String × Int × ℚ)) (h : History)
    (hall : ∀ s ∈ S, (histLookup h s.1 s.2.1).isSome) :
    update_history h S = h := by
  induction S with
  | nil => rfl
  | cons s S ih =>
    rw [update_history_cons,
      histInsert_lookup_present h s.1 s.2.1 s.2.2 (hall s (List.mem_cons_self s S))]
    exact ih (fun s2 hs2 => hall s2 (List.mem_cons_of_mem s hs2))

/-! ## Claims about the history store -/

/-- C2: merging observations into a history leaves every `(entity, day)`
pair already present mapped to its original hours value; the only change
is insertion of absent pairs, which receive the first observed value for
their key (first-writer-wins). -/
theorem merge_preserves_existing (h : History) (S : List (String × Int × ℚ)) (t : String)
    (d : Int) :
    (∀ v, histLookup h t d = some v → histLookup (update_history h S) t d = some v) ∧
    (histLookup h t d = none →
      histLookup (update_history h S) t d =
        (S.find? (fun s => decide (s.1 = t) && decide (s.2.1 = d))).map (fun s => s.2.2)) :=
  ⟨fun v hv => update_history_preserves S h t d v hv, fun hn => update_history_new S h t d hn⟩

/-- Witness for C2 at a concrete input: an existing day keeps its value
even when the batch replays that day with different hours, and an absent
day is inserted with the first observed value. -/
theorem merge_preserves_existing_witness :
    histLookup (update_history [("A", [(1, 100)])] [("A", 1, 999), ("A", 2, 50)]) "A" 1
        = some 100 ∧
    histLookup (update_history [("A", [(1, 100)])] [("A", 1, 999), ("A", 2, 50)]) "A" 2
        = some 50 := by
  constructor
  · exact (merge_preserves_existing [("A", [(1, 100)])] [("A", 1, 999), ("A", 2, 50)] "A" 1).1
      100 (by decide)
  · rw [(merge_preserves_existing [("A", [(1, 100)])] [("A", 1, 999), ("A", 2, 50)] "A" 2).2
      (by decide)]
    decide

/-- C3: merging the same observation set twice yields the identical
history to merging it once. -/
theorem merge_idempotent (h : History) (S : List (String × Int × ℚ)) :
    update_history (update_history h S) S = update_history h S :=
  update_history_of_all_present S (update_history h S)
    (fun s hs => update_history_mem_isSome S h s hs)

/-! ## Claims about the classifier -/

/-- C4: with `remaining_days` present the urgency is OVERDUE below 0,
CRITICAL up to 7, COMING_DUE up to 30, OK above 30 (boundaries
inclusive); with only `remaining_hours` present the same shape applies
with thresholds 25 and 100; with both absent the urgency is UNKNOWN. -/
theorem classify_thresholds (d h : ℚ) (rh : Option ℚ) :
    (d < 0 → classify (some d) rh = .OVERDUE) ∧
    (0 ≤ d → d ≤ 7 → classify (some d) rh = .CRITICAL) ∧
    (7 < d → d ≤ 30 → classify (some d) rh = .COMING_DUE) ∧
    (30 < d → classify (some d) rh = .OK) ∧
    (h < 0 → classify none (some h) = .OVERDUE) ∧
    (0 ≤ h → h ≤ 25 → classify none (some h) = .CRITICAL) ∧
    (25 < h → h ≤ 100 → classify none (some h) = .COMING_DUE) ∧
    (100 < h → classify none (some h) = .OK) ∧
    classify none none = .UNKNOWN := by
  refine ⟨?_, ?_, ?_, ?_, ?_, ?_, ?_, ?_, rfl⟩
  · intro h1
    simp [classify, h1]
  · intro h1 h2
    simp [classify, CRITICAL_DAYS, not_lt.mpr h1, h2]
  · intro h1 h2
    simp [classify, CRITICAL_DAYS, COMING_DUE_DAYS,
      not_lt.mpr (le_trans (by norm_num : (0:ℚ) ≤ 7) h1.le), not_le.mpr h1, h2]
  · intro h1
    simp [classify, CRITICAL_DAYS, COMING_DUE_DAYS,
      not_lt.mpr (le_trans (by norm_num : (0:ℚ) ≤ 30) h1.le),
      not_le.mpr (lt_trans (by norm_num : (7:ℚ) < 30) h1), not_le.mpr h1]
  · intro h1
    simp [classify, h1]
  · intro h1 h2
    simp [classify, CRITICAL_HOURS, not_lt.mpr h1, h2]
  · intro h1 h2
    simp [classify, CRITICAL_HOURS, COMING_DUE_HOURS,
      not_lt.mpr (le_trans (by norm_num : (0:ℚ) ≤ 25) h1.le), not_le.mpr h1, h2]
  · intro h1
    simp [classify, CRITICAL_HOURS, COMING_DUE_HOURS,
      not_lt.mpr (le_trans (by norm_num : (0:ℚ) ≤ 100) h1.le),
      not_le.mpr (lt_trans (by norm_num : (25:ℚ) < 100) h1), not_le.mpr h1]

/-- Witness for C4: the day boundaries are inclusive, `7 → CRITICAL` and
`8 → COMING_DUE`. -/
theorem classify_thresholds_witness :
    classify (some 7) none = .CRITICAL ∧ classify (some 8) none = .COMING_DUE :=
  ⟨(classify_thresholds 7 0 none).2.1 (by norm_num) (by norm_num),
   (classify_thresholds 8 0 none).2.2.1 (by norm_num) (by norm_num)⟩

/-- C5: when `remaining_days` is present the classification is
independent of `remaining_hours`, and any negative `remaining_days`
yields OVERDUE regardless of the hours field. -/
theorem classify_days_precedence (d : ℚ) (h1 h2 : Option ℚ) :
    classify (some d) h1 = classify (some d) h2 ∧
    (d < 0 → classify (some d) h1 = .OVERDUE) := by
  constructor
  · rfl
  · intro hd
    simp [classify, hd]

/-- Witness for C5: negative days beat large positive hours. -/
theorem classify_days_precedence_witness :
    classify (some (-1)) (some 500) = .OVERDUE :=
  (classify_days_precedence (-1) (some 500) none).2 (by norm_num)

/-! ## Claim about history loading -/

/-- C9: `load_history` returns the persisted history when the file
exists and parses, and the empty history, without propagating any error,
when the file is absent or unreadable. -/
theorem load_history_fails_soft :
    (∀ h : History, load_history (some (Except.ok h)) = h) ∧
    (∀ e : String, load_history (some (Except.error e)) = []) ∧
    load_history none = [] :=
  ⟨fun _ => rfl, fun _ => rfl, rfl⟩

/-! ## Snapshot-extractor lemmas -/

theorem find?_dropDuplicatesAux (p : Row → Bool) :
    ∀ (rows seen : List Row), (∀ s ∈ seen, p s = false) →
      (dropDuplicatesAux rows seen).find? p = rows.find? p := by
  intro rows
  induction rows with
  | nil => intro seen _; rfl
  | cons r rest ih =>
    intro seen hseen
    unfold dropDuplicatesAux
    by_cases hr : r ∈ seen
    · rw [if_pos hr, ih seen hseen]
      have hpr : p r = false := hseen r hr
      simp [List.find?, hpr]
    · rw [if_neg hr]
      cases hpr : p r with
      | true => simp [List.find?, hpr]
      | false =>
        simp only [List.find?, hpr]
        exact ih (r :: seen) (by
          intro s hs
          rcases List.mem_cons.mp hs with rfl | hs2
          · exact hpr
          · exact hseen s hs2)

theorem mem_dropDuplicatesAux :
    ∀ (rows seen : List Row) (x : Row), x ∈ rows → x ∉ seen → x ∈ dropDuplicatesAux rows seen := by
  intro rows
  induction rows with
  | nil => intro seen x hx; cases hx
  | cons r rest ih =>
    intro seen x hx hxs
    unfold dropDuplicatesAux
    by_cases hr : r ∈ seen
    · rw [if_pos hr]
      rcases List.mem_cons.mp hx with rfl | hx2
      · exact absurd hr hxs
      · exact ih seen x hx2 hxs
    · rw [if_neg hr]
      by_cases hxr : x = r
      · exact hxr ▸ List.mem_cons_self _ _
      · rcases List.mem_cons.mp hx with rfl | hx2
        · exact absurd rfl hxr
        · exact List.mem_cons_of_mem r (ih (r :: seen) x hx2 (by
            intro hmem
            rcases List.mem_cons.mp hmem with h | h
            · exact hxr h
            · exact hxs h))

theorem collectLoop_cons (r : Row) (rest : List Row) (seen : List (String × Int)) :
    collectLoop (r :: rest) seen =
      match rowTriple r with
      | none => collectLoop rest seen
      | some tr =>
        if (tr.1, tr.2.1) ∈ seen then collectLoop rest seen
        else tr :: collectLoop rest ((tr.1, tr.2.1) :: seen) := rfl

theorem collectLoop_keys :
    ∀ (rows : List Row) (seen : List (String × Int)),
      (collectLoop rows seen).Pairwise (fun a b => ¬(a.1 = b.1 ∧ a.2.1 = b.2.1)) ∧
      (∀ tr ∈ collectLoop rows seen, (tr.1, tr.2.1) ∉ seen) := by
  intro rows
  induction rows with
  | nil => intro seen; exact ⟨List.Pairwise.nil, by intro tr htr; cases htr⟩
  | cons r rest ih =>
    intro seen
    cases hrt : rowTriple r with
    | none =>
      simp only [collectLoop_cons, hrt]
      exact ih seen
    | some tr0 =>
      simp only [collectLoop_cons, hrt]
      by_cases hseen : (tr0.1, tr0.2.1) ∈ seen
      · rw [if_pos hseen]
        exact ih seen
      · rw [if_neg hseen]
        obtain ⟨ihp, ihs⟩ := ih ((tr0.1, tr0.2.1) :: seen)
        constructor
        · refine List.Pairwise.cons ?_ ihp
          intro b hb hkey
          have : (b.1, b.2.1) ∉ (tr0.1, tr0.2.1) :: seen := ihs b hb
          exact this (by rw [hkey.1, hkey.2]; exact List.mem_cons_self _ _)
        · intro tr htr
          rcases List.mem_cons.mp htr with rfl | htr2
          · exact hseen
          · have : (tr.1, tr.2.1) ∉ (tr0.1, tr0.2.1) :: seen := ihs tr htr2
            intro hmem
            exact this (List.mem_cons_of_mem _ hmem)

theorem collectLoop_first :
    ∀ (rows : List Row) (seen : List (String × Int)), ∀ tr ∈ collectLoop rows seen,
      ∃ r, rows.find? (fun r2 => keyBool r2 tr.1 tr.2.1) = some r ∧ rowTriple r = some tr := by
  intro rows
  induction rows with
  | nil => intro seen tr htr; cases htr
  | cons r rest ih =>
    intro seen tr htr
    cases hrt : rowTriple r with
    | none =>
      simp only [collectLoop_cons, hrt] at htr
      obtain ⟨r2, hfind, htrip⟩ := ih seen tr htr
      refine ⟨r2, ?_, htrip⟩
      have hkb : keyBool r tr.1 tr.2.1 = false := by simp [keyBool, hrt]
      simp [List.find?, hkb, hfind]
    | some tr0 =>
      simp only [collectLoop_cons, hrt] at htr
      by_cases hseen : (tr0.1, tr0.2.1) ∈ seen
      · rw [if_pos hseen] at htr
        obtain ⟨r2, hfind, htrip⟩ := ih seen tr htr
        refine ⟨r2, ?_, htrip⟩
        have hne : ¬(tr0.1 = tr.1 ∧ tr0.2.1 = tr.2.1) := by
          intro hk
          have := (collectLoop_keys rest seen).2 tr htr
          exact this (by rw [← hk.1, ← hk.2]; exact hseen)
        have hkb : keyBool r tr.1 tr.2.1 = false := by simp [keyBool, hrt, hne]
        simp [List.find?, hkb, hfind]
      · rw [if_neg hseen] at htr
        rcases List.mem_cons.mp htr with rfl | htr2
        · refine ⟨r, ?_, hrt⟩
          have hkb : keyBool r tr.1 tr.2.1 = true := by simp [keyBool, hrt]
          simp [List.find?, hkb]
        · obtain ⟨r2, hfind, htrip⟩ := ih ((tr0.1, tr0.2.1) :: seen) tr htr2
          refine ⟨r2, ?_, htrip⟩
          have hnotin : (tr.1, tr.2.1) ∉ (tr0.1, tr0.2.1) :: seen :=
            (collectLoop_keys rest ((tr0.1, tr0.2.1) :: seen)).2 tr htr2
          have hne : ¬(tr0.1 = tr.1 ∧ tr0.2.1 = tr.2.1) := by
            intro hk
            exact hnotin (by rw [← hk.1, ← hk.2]; exact List.mem_cons_self _ _)
          have hkb : keyBool r tr.1 tr.2.1 = false := by simp [keyBool, hrt, hne]
          simp [List.find?, hkb, hfind]

theorem collectLoop_complete :
    ∀ (rows : List Row) (seen : List (String × Int)) (r : Row) (tr : String × Int × ℚ),
      r ∈ rows → rowTriple r = some tr →
      (tr.1, tr.2.1) ∈ seen ∨
        ∃ tr2 ∈ collectLoop rows seen, tr2.1 = tr.1 ∧ tr2.2.1 = tr.2.1 := by
  intro rows
  induction rows with
  | nil => intro seen r tr hr; cases hr
  | cons r2 rest ih =>
    intro seen r tr hr htr
    rcases List.mem_cons.mp hr with rfl | hr2
    · simp only [collectLoop_cons, htr]
      by_cases hseen : (tr.1, tr.2.1) ∈ seen
      · exact Or.inl hseen
      · rw [if_neg hseen]
        exact Or.inr ⟨tr, List.mem_cons_self _ _, rfl, rfl⟩
    · cases hrt2 : rowTriple r2 with
      | none =>
        simp only [collectLoop_cons, hrt2]
        exact ih seen r tr hr2 htr
      | some tr0 =>
        simp only [collectLoop_cons, hrt2]
        by_cases hseen : (tr0.1, tr0.2.1) ∈ seen
        · rw [if_pos hseen]
          exact ih seen r tr hr2 htr
        · rw [if_neg hseen]
          rcases ih ((tr0.1, tr0.2.1) :: seen) r tr hr2 htr with hmem | ⟨tr2, htr2, hk⟩
          · rcases List.mem_cons.mp hmem with hk0 | hmem2
            · injection hk0 with h1 h2
              exact Or.inr ⟨tr0, List.mem_cons_self _ _, h1.symm, h2.symm⟩
            · exact Or.inl hmem2
          · exact Or.inr ⟨tr2, List.mem_cons_of_mem _ htr2, hk⟩

/-! ## Claim about the snapshot extractor -/

/-- C8: `collect_snapshots` keeps at most one triple per distinct
`(entity, day)` key; each kept triple is exactly the triple of the first
row of the batch that is valid and carries that key (so invalid rows —
empty identifier, unparseable date, absent or non-numeric hours —
contribute nothing); and every valid row's key appears in the output. -/
theorem collect_snapshots_spec (df : List Row) :
    (collect_snapshots df).Pairwise (fun a b => ¬(a.1 = b.1 ∧ a.2.1 = b.2.1)) ∧
    (∀ tr ∈ collect_snapshots df,
      ∃ r, df.find? (fun r2 => keyBool r2 tr.1 tr.2.1) = some r ∧ rowTriple r = some tr) ∧
    (∀ r ∈ df, ∀ tr, rowTriple r = some tr →
      ∃ tr2 ∈ collect_snapshots df, tr2.1 = tr.1 ∧ tr2.2.1 = tr.2.1) := by
  refine ⟨(collectLoop_keys (dropDuplicates df) []).1, ?_, ?_⟩
  · intro tr htr
    obtain ⟨r, hfind, htrip⟩ := collectLoop_first (dropDuplicates df) [] tr htr
    refine ⟨r, ?_, htrip⟩
    rw [← find?_dropDuplicatesAux (fun r2 => keyBool r2 tr.1 tr.2.1) df []
      (by intro s hs; cases hs)]
    exact hfind
  · intro r hr tr htr
    have hr2 : r ∈ dropDuplicates df :=
      mem_dropDuplicatesAux df [] r hr (by intro h; cases h)
    rcases collectLoop_complete (dropDuplicates df) [] r tr hr2 htr with hmem | hex
    · cases hmem
    · exact hex

/-- Witness for C8 at a concrete batch: a same-key duplicate loses to the
first row, and rows with an empty tail, unparseable date or missing
hours are dropped. -/
theorem collect_snapshots_spec_witness :
    collect_snapshots
        [⟨some "A", some 1, some 10⟩, ⟨some "A", some 1, some 20⟩, ⟨some "", some 2, some 5⟩,
          ⟨some "B", none, some 5⟩, ⟨some "B", some 3, none⟩] = [("A", 1, 10)] ∧
    ∃ r, List.find? (fun r2 => keyBool r2 "A" 1)
          [⟨some "A", some 1, some 10⟩, ⟨some "A", some 1, some 20⟩, ⟨some "", some 2, some 5⟩,
            ⟨some "B", none, some 5⟩, ⟨some "B", some 3, none⟩] = some r ∧
        rowTriple r = some ("A", 1, 10) := by
  constructor
  · decide
  · exact (collect_snapshots_spec
      [⟨some "A", some 1, some 10⟩, ⟨some "A", some 1, some 20⟩, ⟨some "", some 2, some 5⟩,
        ⟨some "B", none, some 5⟩, ⟨some "B", some 3, none⟩]).2.1 ("A", 1, 10) (by decide)

/-! ## Sorting lemmas -/

theorem urgency_key_fst (it : Item) : (urgency_key it).1 = statusOrder it.status := by
  unfold urgency_key
  cases it.remaining_days with
  | some d => rfl
  | none =>
    cases it.remaining_hours with
    | some h => rfl
    | none => rfl

theorem itemLe_of_key_eq {x y : Item} (h : urgency_key x = urgency_key y) : itemLe x y := by
  unfold itemLe keyLe
  exact Or.inr ⟨congrArg Prod.fst h, le_of_eq (congrArg Prod.snd h)⟩

theorem sublist_orderedInsert_self (x : Item) :
    ∀ s : List Item, s.Sublist (s.orderedInsert itemLe x) := by
  intro s
  induction s with
  | nil => simp [List.orderedInsert]
  | cons b s ih =>
    rw [List.orderedInsert]
    by_cases h : itemLe x b
    · rw [if_pos h]
      exact List.Sublist.cons x (List.Sublist.refl (b :: s))
    · rw [if_neg h]
      exact List.Sublist.cons₂ b ih

theorem cons_sublist_orderedInsert (x : Item) :
    ∀ (s t : List Item), t.Sublist s → (∀ y ∈ t, itemLe x y) →
      (x :: t).Sublist (s.orderedInsert itemLe x) := by
  intro s
  induction s with
  | nil =>
    intro t ht _
    rw [List.sublist_nil.mp ht]
    simp [List.orderedInsert]
  | cons b s ih =>
    intro t ht hle
    rw [List.orderedInsert]
    by_cases hxb : itemLe x b
    · rw [if_pos hxb]
      exact List.Sublist.cons₂ x ht
    · rw [if_neg hxb]
      cases ht with
      | cons _ h => exact List.Sublist.cons b (ih t h hle)
      | cons₂ _ h =>
        exact absurd (hle b (List.mem_cons_self _ _)) hxb

theorem sortItems_stable (l : List Item) (k : Nat × ℚ) :
    (l.filter (fun x => decide (urgency_key x = k))).Sublist (sortItems l) := by
  induction l with
  | nil => simp [sortItems, List.insertionSort]
  | cons x l ih =>
    show (List.filter _ (x :: l)).Sublist
      ((l.insertionSort itemLe).orderedInsert itemLe x)
    by_cases hx : urgency_key x = k
    · rw [List.filter_cons_of_pos (by simp [hx])]
      refine cons_sublist_orderedInsert x (l.insertionSort itemLe) _ ih ?_
      intro y hy
      have hyk : urgency_key y = k := by
        have := List.of_mem_filter hy
        simpa using this
      exact itemLe_of_key_eq (hyk ▸ hx)
    · rw [List.filter_cons_of_neg (by simp [hx])]
      exact ih.trans (sublist_orderedInsert_self x (l.insertionSort itemLe))

/-! ## Claim about the ranking order -/

/-- C7: sorting by `urgency_key` permutes the items into an order where
urgency buckets are ascending (all OVERDUE before all CRITICAL before
all COMING_DUE before OK before UNKNOWN), items within one bucket are
ascending in the secondary key (`remaining_days` if present, else
`remaining_hours`, else the sentinel `999_999`, so items with no
remaining-time data come last in their bucket), and the sort is stable:
items with equal sort keys keep their input order. -/
theorem rank_sort_spec (l : List Item) :
    (sortItems l).Perm l ∧
    (sortItems l).Pairwise (fun a b => statusOrder a.status ≤ statusOrder b.status) ∧
    (sortItems l).Pairwise
      (fun a b => a.status = b.status → (urgency_key a).2 ≤ (urgency_key b).2) ∧
    (∀ k : Nat × ℚ,
      (l.filter (fun x => decide (urgency_key x = k))).Sublist (sortItems l)) := by
  have hsorted : (sortItems l).Pairwise itemLe := List.sorted_insertionSort itemLe l
  refine ⟨List.perm_insertionSort itemLe l, ?_, ?_, fun k => sortItems_stable l k⟩
  · refine hsorted.imp ?_
    intro a b hab
    rcases hab with h | ⟨h, _⟩
    · rw [urgency_key_fst, urgency_key_fst] at h
      exact le_of_lt h
    · rw [urgency_key_fst, urgency_key_fst] at h
      exact le_of_eq h
  · refine hsorted.imp ?_
    intro a b hab hst
    rcases hab with h | ⟨_, h2⟩
    · rw [urgency_key_fst, urgency_key_fst, hst] at h
      exact absurd h (lt_irrefl _)
    · exact h2

/-- Witness for C7 at a concrete list: a stable sort of three items. -/
theorem rank_sort_spec_witness :
    (sortItems [⟨.OK, some 40, none⟩, ⟨.OVERDUE, some (-2), none⟩, ⟨.CRITICAL, some 5, none⟩]).Perm
      [⟨.OK, some 40, none⟩, ⟨.OVERDUE, some (-2), none⟩, ⟨.CRITICAL, some 5, none⟩] :=
  (rank_sort_spec
    [⟨.OK, some 40, none⟩, ⟨.OVERDUE, some (-2), none⟩, ⟨.CRITICAL, some 5, none⟩]).1

/-! ## Estimator lemmas -/

theorem maxD_eq_none (l : List Int) : maxD l = none ↔ l = [] := by
  cases l with
  | nil => simp [maxD]
  | cons d rest =>
    simp only [maxD]
    cases maxD rest <;> simp

theorem maxD_mem (l : List Int) (m : Int) (h : maxD l = some m) : m ∈ l := by
  induction l generalizing m with
  | nil => cases h
  | cons d rest ih =>
    simp only [maxD] at h
    cases hr : maxD rest with
    | none =>
      rw [hr] at h
      injection h with h
      exact h ▸ List.mem_cons_self _ _
    | some m2 =>
      rw [hr] at h
      injection h with h
      rcases max_choice d m2 with hc | hc
      · rw [← h, hc]
        exact List.mem_cons_self _ _
      · rw [← h, hc]
        exact List.mem_cons_of_mem _ (ih m2 hr)

theorem maxD_le (l : List Int) (m : Int) (h : maxD l = some m) : ∀ x ∈ l, x ≤ m := by
  induction l generalizing m with
  | nil => intro x hx; cases hx
  | cons d rest ih =>
    simp only [maxD] at h
    intro x hx
    cases hr : maxD rest with
    | none =>
      rw [hr] at h
      injection h with h
      rcases List.mem_cons.mp hx with rfl | hx2
      · exact le_of_eq h
      · rw [(maxD_eq_none rest).mp hr] at hx2
        cases hx2
    | some m2 =>
      rw [hr] at h
      injection h with h
      rcases List.mem_cons.mp hx with rfl | hx2
      · exact h ▸ le_max_left x m2
      · exact le_trans (ih m2 hr x hx2) (h ▸ le_max_right d m2)

theorem maxD_of (l : List Int) (m : Int) (hm : m ∈ l) (hle : ∀ x ∈ l, x ≤ m) :
    maxD l = some m := by
  cases hmax : maxD l with
  | none =>
    rw [(maxD_eq_none l).mp hmax] at hm
    cases hm
  | some m2 =>
    have h1 : m ≤ m2 := maxD_le l m2 hmax m hm
    have h2 : m2 ≤ m := hle m2 (maxD_mem l m2 hmax)
    rw [le_antisymm h2 h1]

theorem minD_eq_none (l : List Int) : minD l = none ↔ l = [] := by
  cases l with
  | nil => simp [minD]
  | cons d rest =>
    simp only [minD]
    cases minD rest <;> simp

theorem minD_mem (l : List Int) (m : Int) (h : minD l = some m) : m ∈ l := by
  induction l generalizing m with
  | nil => cases h
  | cons d rest ih =>
    simp only [minD] at h
    cases hr : minD rest with
    | none =>
      rw [hr] at h
      injection h with h
      exact h ▸ List.mem_cons_self _ _
    | some m2 =>
      rw [hr] at h
      injection h with h
      rcases min_choice d m2 with hc | hc
      · rw [← h, hc]
        exact List.mem_cons_self _ _
      · rw [← h, hc]
        exact List.mem_cons_of_mem _ (ih m2 hr)

theorem minD_ge (l : List Int) (m : Int) (h : minD l = some m) : ∀ x ∈ l, m ≤ x := by
  induction l generalizing m with
  | nil => intro x hx; cases hx
  | cons d rest ih =>
    simp only [minD] at h
    intro x hx
    cases hr : minD rest with
    | none =>
      rw [hr] at h
      injection h with h
      rcases List.mem_cons.mp hx with rfl | hx2
      · exact le_of_eq h.symm
      · rw [(minD_eq_none rest).mp hr] at hx2
        cases hx2
    | some m2 =>
      rw [hr] at h
      injection h with h
      rcases List.mem_cons.mp hx with rfl | hx2
      · exact h ▸ min_le_left x m2
      · exact le_trans (h ▸ min_le_right d m2) (ih m2 hr x hx2)

theorem minD_of (l : List Int) (m : Int) (hm : m ∈ l) (hle : ∀ x ∈ l, m ≤ x) :
    minD l = some m := by
  cases hmin : minD l with
  | none =>
    rw [(minD_eq_none l).mp hmin] at hm
    cases hm
  | some m2 =>
    have h1 : m2 ≤ m := minD_ge l m2 hmin m hm
    have h2 : m ≤ m2 := hle m2 (minD_mem l m2 hmin)
    rw [le_antisymm h1 h2]

theorem maxD_insertionSort_headI (l : List Int) (hne : l ≠ []) :
    maxD l = some ((l.insertionSort descDay).headI) := by
  have hperm : (l.insertionSort descDay).Perm l := List.perm_insertionSort descDay l
  have hsorted : (l.insertionSort descDay).Pairwise descDay :=
    List.sorted_insertionSort descDay l
  cases hs : l.insertionSort descDay with
  | nil =>
    rw [hs] at hperm
    exact absurd hperm.symm.eq_nil hne
  | cons x s2 =>
    rw [hs] at hperm hsorted
    have hpc := List.pairwise_cons.mp hsorted
    apply maxD_of
    · exact hperm.subset (List.mem_cons_self x s2)
    · intro y hy
      have hy2 : y ∈ x :: s2 := hperm.mem_iff.mpr hy
      rcases List.mem_cons.mp hy2 with rfl | hy3
      · exact le_refl y
      · exact hpc.1 y hy3

theorem sorted_desc_getLastD :
    ∀ (s : List Int) (a d : Int), (a :: s).Pairwise descDay →
      ((a :: s).getLastD d ∈ (a :: s) ∧ ∀ y ∈ (a :: s), (a :: s).getLastD d ≤ y) := by
  intro s
  induction s with
  | nil =>
    intro a d _
    constructor
    · exact List.mem_cons_self _ _
    · intro y hy
      rcases List.mem_cons.mp hy with rfl | hy2
      · exact le_refl y
      · cases hy2
  | cons b s2 ih =>
    intro a d hp
    have hpc := List.pairwise_cons.mp hp
    obtain ⟨ihm, ihb⟩ := ih b a hpc.2
    rw [List.getLastD_cons]
    constructor
    · exact List.mem_cons_of_mem a ihm
    · intro y hy
      rcases List.mem_cons.mp hy with rfl | hy2
      · exact hpc.1 _ ihm
      · exact ihb y hy2

theorem minD_insertionSort_getLastD (l : List Int) (hne : l ≠ []) :
    minD l = some ((l.insertionSort descDay).getLastD 0) := by
  have hperm : (l.insertionSort descDay).Perm l := List.perm_insertionSort descDay l
  have hsorted : (l.insertionSort descDay).Pairwise descDay :=
    List.sorted_insertionSort descDay l
  cases hs : l.insertionSort descDay with
  | nil =>
    rw [hs] at hperm
    exact absurd hperm.symm.eq_nil hne
  | cons x s2 =>
    rw [hs] at hperm hsorted
    obtain ⟨hm, hb⟩ := sorted_desc_getLastD s2 x 0 hsorted
    apply minD_of
    · exact hperm.subset hm
    · intro y hy
      exact hb y (hperm.mem_iff.mpr hy)

theorem find?_desc_some (s : List Int) (bound x : Int) (hs : s.Pairwise descDay)
    (hf : s.find? (fun d => decide (d ≤ bound)) = some x) :
    x ∈ s ∧ x ≤ bound ∧ ∀ y ∈ s, y ≤ bound → y ≤ x := by
  induction s generalizing x with
  | nil => cases hf
  | cons a s2 ih =>
    have hpc := List.pairwise_cons.mp hs
    by_cases ha : a ≤ bound
    · rw [List.find?_cons_of_pos _ (by simpa using ha)] at hf
      injection hf with hf
      subst hf
      refine ⟨List.mem_cons_self _ _, ha, ?_⟩
      intro y hy _
      rcases List.mem_cons.mp hy with rfl | hy2
      · exact le_refl y
      · exact hpc.1 y hy2
    · rw [List.find?_cons_of_neg _ (by simpa using ha)] at hf
      obtain ⟨hmem, hxb, hmax⟩ := ih x hpc.2 hf
      refine ⟨List.mem_cons_of_mem a hmem, hxb, ?_⟩
      intro y hy hyb
      rcases List.mem_cons.mp hy with rfl | hy2
      · exact absurd hyb ha
      · exact hmax y hy2 hyb

theorem latestQualifying_eq_find? (l : List Int) (bound : Int) :
    latestQualifying l bound = (l.insertionSort descDay).find? (fun d => decide (d ≤ bound)) := by
  have hperm : (l.insertionSort descDay).Perm l := List.perm_insertionSort descDay l
  have hsorted : (l.insertionSort descDay).Pairwise descDay :=
    List.sorted_insertionSort descDay l
  cases hf : (l.insertionSort descDay).find? (fun d => decide (d ≤ bound)) with
  | none =>
    have hnone := List.find?_eq_none.mp hf
    unfold latestQualifying
    have hfil : l.filter (fun d => decide (d ≤ bound)) = [] := by
      rw [List.filter_eq_nil_iff]
      intro a ha
      have ham : a ∈ l.insertionSort descDay := hperm.mem_iff.mpr ha
      simpa using hnone a ham
    rw [hfil]
    rfl
  | some x =>
    obtain ⟨hmem, hxb, hmax⟩ := find?_desc_some _ bound x hsorted hf
    unfold latestQualifying
    apply maxD_of
    · rw [List.mem_filter]
      exact ⟨hperm.subset hmem, by simpa using hxb⟩
    · intro y hy
      rw [List.mem_filter] at hy
      exact hmax y (hperm.mem_iff.mpr hy.1) (by simpa using hy.2)

theorem calcEntity_avg_short (today : Int) (snaps : EntityHist)
    (h2 : ((snaps.map Prod.fst).insertionSort descDay).length < 2) :
    (calcEntity today snaps).avg_daily = none := by
  simp only [calcEntity]
  rw [if_pos h2]

theorem calcEntity_projections (today : Int) (snaps : EntityHist) :
    (calcEntity today snaps).projection_weekly
        = ((calcEntity today snaps).avg_daily).map (fun q => q * 7) ∧
    (calcEntity today snaps).projection_monthly
        = ((calcEntity today snaps).avg_daily).map (fun q => q * 30) := by
  by_cases h2 : ((snaps.map Prod.fst).insertionSort descDay).length < 2
  · constructor
    · simp only [calcEntity]
      rw [if_pos h2]
      rfl
    · simp only [calcEntity]
      rw [if_pos h2]
      rfl
  · constructor
    · simp only [calcEntity]
      rw [if_neg h2]
    · simp only [calcEntity]
      rw [if_neg h2]


theorem calcEntity_avg_monthly (today : Int) (snaps : EntityHist)
    (h2 : ¬((snaps.map Prod.fst).insertionSort descDay).length < 2) (b : Int)
    (hf : ((snaps.map Prod.fst).insertionSort descDay).find? (fun d => decide (d ≤ today - 30))
      = some b) :
    (calcEntity today snaps).avg_daily =
      some ((hoursAt snaps ((snaps.map Prod.fst).insertionSort descDay).headI
          - hoursAt snaps b) / 30) := by
  simp only [calcEntity]
  rw [if_neg h2, hf]
  simp only [Option.map_some']
  rw [show today - (today - 30) = (30 : ℤ) by ring]
  rw [if_pos (by norm_num : (0 : ℤ) < 30)]
  norm_num

theorem calcEntity_avg_weekly (today : Int) (snaps : EntityHist)
    (h2 : ¬((snaps.map Prod.fst).insertionSort descDay).length < 2) (b : Int)
    (hf30 : ((snaps.map Prod.fst).insertionSort descDay).find?
      (fun d => decide (d ≤ today - 30)) = none)
    (hf7 : ((snaps.map Prod.fst).insertionSort descDay).find? (fun d => decide (d ≤ today - 7))
      = some b) :
    (calcEntity today snaps).avg_daily =
      some ((hoursAt snaps ((snaps.map Prod.fst).insertionSort descDay).headI
          - hoursAt snaps b) / 7) := by
  simp only [calcEntity]
  rw [if_neg h2, hf30, hf7]
  simp only [Option.map_some', Option.map_none']
  rw [show today - (today - 7) = (7 : ℤ) by ring]
  rw [if_pos (by norm_num : (0 : ℤ) < 7)]
  norm_num

theorem calcEntity_avg_full (today : Int) (snaps : EntityHist)
    (h2 : ¬((snaps.map Prod.fst).insertionSort descDay).length < 2)
    (hf30 : ((snaps.map Prod.fst).insertionSort descDay).find?
      (fun d => decide (d ≤ today - 30)) = none)
    (hf7 : ((snaps.map Prod.fst).insertionSort descDay).find?
      (fun d => decide (d ≤ today - 7)) = none) :
    (calcEntity today snaps).avg_daily =
      (if 0 < ((snaps.map Prod.fst).insertionSort descDay).headI
          - ((snaps.map Prod.fst).insertionSort descDay).getLastD 0 then
        some ((hoursAt snaps ((snaps.map Prod.fst).insertionSort descDay).headI
            - hoursAt snaps (((snaps.map Prod.fst).insertionSort descDay).getLastD 0))
          / ((((snaps.map Prod.fst).insertionSort descDay).headI
              - ((snaps.map Prod.fst).insertionSort descDay).getLastD 0 : Int) : ℚ))
      else none) := by
  simp only [calcEntity]
  rw [if_neg h2, hf30, hf7]
  simp only [Option.map_none']

theorem specAvgDaily_short (today : Int) (snaps : EntityHist) (h2 : snaps.length < 2) :
    specAvgDaily today snaps = none := by
  simp only [specAvgDaily]
  rw [if_pos h2]

theorem specAvgDaily_monthly (today : Int) (snaps : EntityHist) (h2 : ¬snaps.length < 2)
    (newest oldest b : Int) (hmax : maxD (snaps.map Prod.fst) = some newest)
    (hmin : minD (snaps.map Prod.fst) = some oldest)
    (hq : latestQualifying (snaps.map Prod.fst) (today - 30) = some b) :
    specAvgDaily today snaps = some ((hoursAt snaps newest - hoursAt snaps b) / 30) := by
  simp only [specAvgDaily]
  rw [if_neg h2, hmax, hmin]
  simp only []
  rw [hq]

theorem specAvgDaily_weekly (today : Int) (snaps : EntityHist) (h2 : ¬snaps.length < 2)
    (newest oldest b : Int) (hmax : maxD (snaps.map Prod.fst) = some newest)
    (hmin : minD (snaps.map Prod.fst) = some oldest)
    (hq30 : latestQualifying (snaps.map Prod.fst) (today - 30) = none)
    (hq7 : latestQualifying (snaps.map Prod.fst) (today - 7) = some b) :
    specAvgDaily today snaps = some ((hoursAt snaps newest - hoursAt snaps b) / 7) := by
  simp only [specAvgDaily]
  rw [if_neg h2, hmax, hmin]
  simp only []
  rw [hq30, hq7]

theorem specAvgDaily_full (today : Int) (snaps : EntityHist) (h2 : ¬snaps.length < 2)
    (newest oldest : Int) (hmax : maxD (snaps.map Prod.fst) = some newest)
    (hmin : minD (snaps.map Prod.fst) = some oldest)
    (hq30 : latestQualifying (snaps.map Prod.fst) (today - 30) = none)
    (hq7 : latestQualifying (snaps.map Prod.fst) (today - 7) = none) :
    specAvgDaily today snaps =
      (if newest - oldest = 0 then none
       else some ((hoursAt snaps newest - hoursAt snaps oldest)
         / ((newest - oldest : Int) : ℚ))) := by
  simp only [specAvgDaily]
  rw [if_neg h2, hmax, hmin]
  simp only []
  rw [hq30, hq7]

theorem headI_mem_of_ne_nil (l : List Int) (h : l ≠ []) : l.headI ∈ l := by
  cases l with
  | nil => exact absurd rfl h
  | cons x s => exact List.mem_cons_self x s

theorem sort_length_eq (l : List Int) :
    (l.insertionSort descDay).length = l.length :=
  (List.perm_insertionSort descDay l).length_eq

theorem headI_ne_getLastD_of_nodup (l : List Int) (hnd : l.Nodup)
    (h2 : ¬(l.insertionSort descDay).length < 2) :
    (l.insertionSort descDay).headI ≠ (l.insertionSort descDay).getLastD 0 := by
  have hsorted : (l.insertionSort descDay).Pairwise descDay :=
    List.sorted_insertionSort descDay l
  have hnd2 : (l.insertionSort descDay).Nodup :=
    (List.perm_insertionSort descDay l).symm.nodup hnd
  cases hs : l.insertionSort descDay with
  | nil => rw [hs] at h2; simp at h2
  | cons x s2 =>
    cases hs2 : s2 with
    | nil => rw [hs, hs2] at h2; simp at h2
    | cons y s3 =>
      rw [hs, hs2] at hsorted hnd2
      have hpc := List.pairwise_cons.mp hsorted
      obtain ⟨hm, _⟩ := sorted_desc_getLastD s3 y x hpc.2
      rw [List.getLastD_cons]
      intro hcontra
      have hcx : x = (y :: s3).getLastD x := hcontra
      have hx : x ∈ y :: s3 := by
        rw [hcx]
        exact hm
      exact (List.nodup_cons.mp hnd2).1 hx

/-! ## Claims about the utilization estimator -/

/-- C1: the estimator refines the specified best-available-window rule:
a snapshot at or before `today - 30` gives
`(latest - most recent such snapshot) / 30` with the nominal divisor 30;
else a snapshot at or before `today - 7` gives the analogous quotient by
the nominal 7; else, with at least two snapshot days, the full span
`(latest - oldest) / (newest day - oldest day)` is used.  Histories
produced by the program have distinct days per entity, which is the
stated hypothesis. -/
theorem utilization_window_precedence (today : Int) (snaps : EntityHist)
    (hnd : (snaps.map Prod.fst).Nodup) :
    (calcEntity today snaps).avg_daily = specAvgDaily today snaps := by
  have hlen : ((snaps.map Prod.fst).insertionSort descDay).length = snaps.length := by
    rw [sort_length_eq, List.length_map]
  by_cases h2 : ((snaps.map Prod.fst).insertionSort descDay).length < 2
  · rw [calcEntity_avg_short today snaps h2, specAvgDaily_short today snaps (by omega)]
  · have h2b : ¬snaps.length < 2 := by omega
    have hlne : snaps.map Prod.fst ≠ [] := by
      intro h0
      apply h2
      rw [h0]
      simp [List.insertionSort]
    have hmax := maxD_insertionSort_headI (snaps.map Prod.fst) hlne
    have hmin := minD_insertionSort_getLastD (snaps.map Prod.fst) hlne
    cases hf30 : ((snaps.map Prod.fst).insertionSort descDay).find?
        (fun d => decide (d ≤ today - 30)) with
    | some b =>
      rw [calcEntity_avg_monthly today snaps h2 b hf30,
        specAvgDaily_monthly today snaps h2b _ _ b hmax hmin
          (by rw [latestQualifying_eq_find?]; exact hf30)]
    | none =>
      cases hf7 : ((snaps.map Prod.fst).insertionSort descDay).find?
          (fun d => decide (d ≤ today - 7)) with
      | some b =>
        rw [calcEntity_avg_weekly today snaps h2 b hf30 hf7,
          specAvgDaily_weekly today snaps h2b _ _ b hmax hmin
            (by rw [latestQualifying_eq_find?]; exact hf30)
            (by rw [latestQualifying_eq_find?]; exact hf7)]
      | none =>
        rw [calcEntity_avg_full today snaps h2 hf30 hf7,
          specAvgDaily_full today snaps h2b _ _ hmax hmin
            (by rw [latestQualifying_eq_find?]; exact hf30)
            (by rw [latestQualifying_eq_find?]; exact hf7)]
        have hle : ((snaps.map Prod.fst).insertionSort descDay).getLastD 0
            ≤ ((snaps.map Prod.fst).insertionSort descDay).headI :=
          minD_ge _ _ hmin _ (maxD_mem _ _ hmax)
        have hne := headI_ne_getLastD_of_nodup (snaps.map Prod.fst) hnd h2
        have hpos : 0 < ((snaps.map Prod.fst).insertionSort descDay).headI
            - ((snaps.map Prod.fst).insertionSort descDay).getLastD 0 := by
          rcases lt_or_eq_of_le hle with h | h
          · omega
          · exact absurd h.symm hne
        rw [if_pos hpos, if_neg (by omega)]

/-- Witness for C1 at the claim's scenario: 100.0 hours on day 1 and
130.0 hours on day 31, run on day 31 (the day-1 snapshot is exactly 30
days old), give 1.0 hours/day, 7.0 weekly and 30.0 monthly. -/
theorem utilization_window_precedence_witness :
    (calcEntity 31 [(1, 100), (31, 130)]).avg_daily = some 1 ∧
    (calcEntity 31 [(1, 100), (31, 130)]).projection_weekly = some 7 ∧
    (calcEntity 31 [(1, 100), (31, 130)]).projection_monthly = some 30 := by
  have h := utilization_window_precedence 31 [(1, 100), (31, 130)] (by decide)
  refine ⟨?_, ?_, ?_⟩
  · rw [h]
    simp [specAvgDaily, latestQualifying, maxD, minD, hoursAt, entityLookup, List.find?]
    norm_num
  · simp [calcEntity, hoursAt, entityLookup, List.insertionSort, List.orderedInsert,
      descDay, ascDay, List.find?]
    norm_num
  · simp [calcEntity, hoursAt, entityLookup, List.insertionSort, List.orderedInsert,
      descDay, ascDay, List.find?]
    norm_num

/-- C6: the estimator is total; with fewer than two snapshot days the
rate is absent (not zero, no error), with a degenerate zero-day span the
rate is absent rather than a division by zero, and the weekly/monthly
projections are `avg_daily × 7` and `avg_daily × 30`, absent exactly
when the rate is absent. -/
theorem utilization_totality (today : Int) (snaps : EntityHist) :
    (snaps.length < 2 → (calcEntity today snaps).avg_daily = none) ∧
    (calcEntity today snaps).projection_weekly
        = ((calcEntity today snaps).avg_daily).map (fun q => q * 7) ∧
    (calcEntity today snaps).projection_monthly
        = ((calcEntity today snaps).avg_daily).map (fun q => q * 30) ∧
    ((∀ d ∈ snaps.map Prod.fst, today - 7 < d) →
      (∀ d ∈ snaps.map Prod.fst, ∀ d2 ∈ snaps.map Prod.fst, d = d2) →
      (calcEntity today snaps).avg_daily = none) := by
  have hlen : ((snaps.map Prod.fst).insertionSort descDay).length = snaps.length := by
    rw [sort_length_eq, List.length_map]
  refine ⟨?_, (calcEntity_projections today snaps).1, (calcEntity_projections today snaps).2,
    ?_⟩
  · intro h
    exact calcEntity_avg_short today snaps (by omega)
  · intro h7 heq
    by_cases h2 : ((snaps.map Prod.fst).insertionSort descDay).length < 2
    · exact calcEntity_avg_short today snaps h2
    · have hmem : ∀ x ∈ (snaps.map Prod.fst).insertionSort descDay, x ∈ snaps.map Prod.fst :=
        fun x hx => (List.perm_insertionSort descDay _).subset hx
      have hf7 : ((snaps.map Prod.fst).insertionSort descDay).find?
          (fun d => decide (d ≤ today - 7)) = none := by
        rw [List.find?_eq_none]
        intro x hx
        simpa using not_le.mpr (h7 x (hmem x hx))
      have hf30 : ((snaps.map Prod.fst).insertionSort descDay).find?
          (fun d => decide (d ≤ today - 30)) = none := by
        rw [List.find?_eq_none]
        intro x hx
        have := h7 x (hmem x hx)
        simp only [decide_eq_true_eq]
        omega
      rw [calcEntity_avg_full today snaps h2 hf30 hf7]
      have hlne : (snaps.map Prod.fst).insertionSort descDay ≠ [] := by
        intro h0
        rw [h0] at h2
        simp at h2
      have hheadI : ((snaps.map Prod.fst).insertionSort descDay).headI ∈ snaps.map Prod.fst :=
        hmem _ (headI_mem_of_ne_nil _ hlne)
      have hsorted : ((snaps.map Prod.fst).insertionSort descDay).Pairwise descDay :=
        List.sorted_insertionSort descDay _
      have hlast : ((snaps.map Prod.fst).insertionSort descDay).getLastD 0
          ∈ snaps.map Prod.fst := by
        cases hs : (snaps.map Prod.fst).insertionSort descDay with
        | nil => exact absurd hs hlne
        | cons x s2 =>
          rw [hs] at hsorted
          exact hmem _ (hs ▸ (sorted_desc_getLastD s2 x 0 hsorted).1)
      have heads : ((snaps.map Prod.fst).insertionSort descDay).headI
          = ((snaps.map Prod.fst).insertionSort descDay).getLastD 0 :=
        heq _ hheadI _ hlast
      rw [if_neg (by omega)]

/-- Witness for C6: a single-snapshot history yields an absent rate, and
a two-snapshot history on one same recent day yields an absent rate
instead of a division by the zero-day span. -/
theorem utilization_totality_witness :
    (calcEntity 0 [(0, 100)]).avg_daily = none ∧
    (calcEntity 10 [(10, 1), (10, 2)]).avg_daily = none :=
  ⟨(utilization_totality 0 [(0, 100)]).1 (by norm_num),
   (utilization_totality 10 [(10, 1), (10, 2)]).2.2.2 (by decide) (by decide)⟩

/-- C10: when the 30-day window applies, the baseline the estimator uses
is the most recent snapshot at or before `today - 30`, and when only the
7-day window applies (no snapshot at or before `today - 30`), the
baseline is the most recent snapshot at or before `today - 7` — in both
windows the rate depends only on the latest snapshot and the qualifying
snapshot closest to the boundary, not on the oldest qualifying one. -/
theorem baseline_most_recent_qualifying (today : Int) (snaps : EntityHist)
    (hnd : (snaps.map Prod.fst).Nodup) (hlen2 : 2 ≤ snaps.length) (m : Int)
    (hm : m ∈ snaps.map Prod.fst) (hmtop : ∀ d ∈ snaps.map Prod.fst, d ≤ m) :
    (∀ b, b ∈ snaps.map Prod.fst → b ≤ today - 30 →
      (∀ d ∈ snaps.map Prod.fst, d ≤ today - 30 → d ≤ b) →
      (calcEntity today snaps).avg_daily
        = some ((hoursAt snaps m - hoursAt snaps b) / 30)) ∧
    (∀ b, (∀ d ∈ snaps.map Prod.fst, ¬d ≤ today - 30) → b ∈ snaps.map Prod.fst →
      b ≤ today - 7 →
      (∀ d ∈ snaps.map Prod.fst, d ≤ today - 7 → d ≤ b) →
      (calcEntity today snaps).avg_daily
        = some ((hoursAt snaps m - hoursAt snaps b) / 7)) := by
  have hlen : ((snaps.map Prod.fst).insertionSort descDay).length = snaps.length := by
    rw [sort_length_eq, List.length_map]
  have h2 : ¬((snaps.map Prod.fst).insertionSort descDay).length < 2 := by omega
  have hlne : snaps.map Prod.fst ≠ [] := fun h0 => by rw [h0] at hm; cases hm
  have hmeq : m = ((snaps.map Prod.fst).insertionSort descDay).headI := by
    have h1 := maxD_insertionSort_headI (snaps.map Prod.fst) hlne
    have h2m := maxD_of (snaps.map Prod.fst) m hm hmtop
    rw [h2m] at h1
    injection h1
  have hmem : ∀ x ∈ (snaps.map Prod.fst).insertionSort descDay, x ∈ snaps.map Prod.fst :=
    fun x hx => (List.perm_insertionSort descDay _).subset hx
  constructor
  · intro b hb hbq hbtop
    have hq : latestQualifying (snaps.map Prod.fst) (today - 30) = some b := by
      unfold latestQualifying
      apply maxD_of
      · rw [List.mem_filter]
        exact ⟨hb, by simpa using hbq⟩
      · intro y hy
        rw [List.mem_filter] at hy
        exact hbtop y hy.1 (by simpa using hy.2)
    have hf30 : ((snaps.map Prod.fst).insertionSort descDay).find?
        (fun d => decide (d ≤ today - 30)) = some b := by
      rw [← latestQualifying_eq_find?]
      exact hq
    rw [calcEntity_avg_monthly today snaps h2 b hf30, ← hmeq]
  · intro b hnone hb hbq hbtop
    have hf30 : ((snaps.map Prod.fst).insertionSort descDay).find?
        (fun d => decide (d ≤ today - 30)) = none := by
      rw [List.find?_eq_none]
      intro x hx
      simpa using hnone x (hmem x hx)
    have hq : latestQualifying (snaps.map Prod.fst) (today - 7) = some b := by
      unfold latestQualifying
      apply maxD_of
      · rw [List.mem_filter]
        exact ⟨hb, by simpa using hbq⟩
      · intro y hy
        rw [List.mem_filter] at hy
        exact hbtop y hy.1 (by simpa using hy.2)
    have hf7 : ((snaps.map Prod.fst).insertionSort descDay).find?
        (fun d => decide (d ≤ today - 7)) = some b := by
      rw [← latestQualifying_eq_find?]
      exact hq
    rw [calcEntity_avg_weekly today snaps h2 b hf30 hf7, ← hmeq]

/-- Witness for C10, both windows.  30-day: qualifying snapshots on days
1 and 5 (run date 40, boundary day 10) give baseline day 5, the most
recent qualifying one, so the rate is (50 − 20) / 30 = 1, not
(50 − 10) / 30.  7-day: with snapshots on days 12, 30 and 40 (boundary
days 10 and 33, so no 30-day-old snapshot and two 7-day-qualifying
ones), the baseline is day 30, so the rate is (50 − 29) / 7 = 3, not
(50 − 10) / 7. -/
theorem baseline_most_recent_qualifying_witness :
    (calcEntity 40 [(1, 10), (5, 20), (40, 50)]).avg_daily = some 1 ∧
    (calcEntity 40 [(12, 10), (30, 29), (40, 50)]).avg_daily = some 3 := by
  constructor
  · have h := (baseline_most_recent_qualifying 40 [(1, 10), (5, 20), (40, 50)] (by decide)
      (by norm_num) 40 (by decide) (by decide)).1 5 (by decide) (by decide) (by decide)
    rw [h]
    simp [hoursAt, entityLookup, List.find?]
    norm_num
  · have h := (baseline_most_recent_qualifying 40 [(12, 10), (30, 29), (40, 50)] (by decide)
      (by norm_num) 40 (by decide) (by decide)).2 30 (by decide) (by decide) (by decide)
      (by decide)
    rw [h]
    simp [hoursAt, entityLookup, List.find?]
    norm_num

end B407
